import Mathlib

/-!
Shallow embedding of the FantasyLine data browser (`src/Streamlit/app.py`).

Modelling conventions:

* A pandas `DataFrame` row is a `Record`; a frame is a `List Record` in row
  order.  The six canonical columns (`Player`, `Team`, `Pos`,
  `Base_Projection`, `Proj TD PTS`, `Total_Projection`) are the fields of
  `Record`; the embedding fixes the full six-column schema (the spec's
  `Record` data model).
* Float values are embedded as `ℚ`; a missing value (pandas `NaN`) is
  `none`.  After `load_data` the three string columns never hold `NaN`
  (`astype(str)` turns `NaN` into the string `"nan"`), so they are plain
  `String`s.
* `pd.Series.str.contains(search, case=False, na=False)` uses `re.search`
  with `regex=True`; the regex language is modelled by the fragment
  `RAtom` (literal characters and the `.` wildcard).  Patterns using any
  other metacharacter are outside the modelled fragment (`none`).
* `DataFrame.sort_values(c, ascending, na_position="last")` is modelled
  after pandas `nargsort`: rows with a missing key are removed and
  appended at the end in their original order; the remaining rows are
  sorted (reversed before and after the sort when descending).  The
  source leaves the `kind` argument at its default `'quicksort'`, for
  which pandas documents no stability guarantee; the model uses a
  concrete stable insertion sort, and no theorem below relies on the
  order of equal keys.
* CSV text is modelled at the cell level: a file is a `List (List String)`
  of rows of unquoted cell contents (the quoting/splitting layer of the
  `csv` format is the external lexical layer and is bijective on cells).
-/

/-- One row of the projections table: the canonical columns `Player`,
`Team`, `Pos`, `Base_Projection`, `Proj TD PTS`, `Total_Projection` of
`load_data`'s output.  Numeric columns are `Option ℚ` with `none` for
`NaN`. -/
structure Record where
  player : String
  team : String
  pos : String
  base_projection : Option ℚ
  proj_td_pts : Option ℚ
  total_projection : Option ℚ
deriving DecidableEq

/-- ASCII lower-casing of one character, modelling the effect of
`re.IGNORECASE` on case comparison. -/
def lowerChar (c : Char) : Char :=
  if 65 ≤ c.toNat ∧ c.toNat ≤ 90 then Char.ofNat (c.toNat + 32) else c

/-- One atom of the modelled regular-expression fragment: a literal
character or the `.` wildcard. -/
inductive RAtom where
  | lit (c : Char)
  | dot
deriving DecidableEq

/-- The metacharacters of Python regular expressions. -/
def metaChars : List Char :=
  ['.', '^', '$', '*', '+', '?', '\x7b', '\x7d', '[', ']', '\\', '|', '(', ')']

/-- Whether `c` is a Python regex metacharacter. -/
def isMetaChar (c : Char) : Bool := metaChars.contains c

/-- Parse a pattern string into the modelled regex fragment: literal
characters and the `.` wildcard.  A pattern using any other
metacharacter is outside the fragment (`none`). -/
def parsePattern : List Char → Option (List RAtom)
  | [] => some []
  | c :: cs =>
    if c = '.' then (parsePattern cs).map (fun p => RAtom.dot :: p)
    else if isMetaChar c then none
    else (parsePattern cs).map (fun p => RAtom.lit c :: p)

/-- Whether one regex atom matches one character, case-insensitively
(`re.IGNORECASE`); `.` matches every character except a newline. -/
def atomMatches : RAtom → Char → Bool
  | RAtom.lit c, d => lowerChar c == lowerChar d
  | RAtom.dot, d => d != '\n'

/-- Whether the pattern matches a prefix of the character list. -/
def matchesAt : List RAtom → List Char → Bool
  | [], _ => true
  | _ :: _, [] => false
  | a :: p, c :: cs => atomMatches a c && matchesAt p cs

/-- Model of `re.search`: whether the pattern matches at some offset. -/
def reSearch (p : List RAtom) : List Char → Bool
  | [] => matchesAt p []
  | c :: cs => matchesAt p (c :: cs) || reSearch p cs

/-- Model of the name-search filter
`data[data["Player"].str.contains(search, case=False, na=False)]` (an
empty search string is falsy, so no filter is applied).  `str.contains`
treats `search` as a regular expression (`regex=True` default); the
result is `none` when the pattern is outside the modelled fragment. -/
def nameFilter (data : List Record) (search : String) : Option (List Record) :=
  if search = "" then some data
  else (parsePattern search.data).map
    (fun pat => data.filter (fun r => reSearch pat r.player.data))

/-- From the spec's words (claim C1): case-insensitive literal substring
containment of the query in the name, with no special interpretation of
the query string. -/
def specContainsCI (name q : String) : Bool :=
  decide ((q.data.map lowerChar) <:+: (name.data.map lowerChar))

/-- Model of the quick position filter
`if quick != "All" and "Pos" in data.columns: data = data[data["Pos"] == quick]`. -/
def posFilter (data : List Record) (quick : String) : List Record :=
  if quick ≠ "All" then data.filter (fun r => r.pos == quick) else data

/-- Drop leading and trailing whitespace from a character list. -/
def stripChars (cs : List Char) : List Char :=
  ((cs.dropWhile Char.isWhitespace).reverse.dropWhile Char.isWhitespace).reverse

/-- Model of Python `str.strip()`: drop leading and trailing whitespace. -/
def pyStrip (s : String) : String :=
  String.mk (stripChars s.data)

/-- Model of `[t.strip() for t in team_filter.split(",") if t.strip()]`. -/
def parseTeams (tf : String) : List String :=
  ((tf.splitOn ",").map pyStrip).filter (fun t => t ≠ "")

/-- Model of the team filter: with a non-empty (truthy) input and a
non-empty parsed team list, keep rows whose team is a member
(`data[data["Team"].isin(teams)]`). -/
def teamFilter (data : List Record) (tf : String) : List Record :=
  if tf ≠ "" then
    let teams := parseTeams tf
    if teams ≠ [] then data.filter (fun r => teams.contains r.team) else data
  else data

/-- The sortable columns offered by the `Sort by` selectbox. -/
inductive SortField where
  | player
  | team
  | pos
  | base_projection
  | proj_td_pts
  | total_projection
deriving DecidableEq

/-- The sort key of a record for one column; `none` is a missing value
(only the numeric columns can be missing after `load_data`). -/
def sortKey : SortField → Record → Option (String ⊕ ℚ)
  | SortField.player, r => some (Sum.inl r.player)
  | SortField.team, r => some (Sum.inl r.team)
  | SortField.pos, r => some (Sum.inl r.pos)
  | SortField.base_projection, r => r.base_projection.map Sum.inr
  | SortField.proj_td_pts, r => r.proj_td_pts.map Sum.inr
  | SortField.total_projection, r => r.total_projection.map Sum.inr

/-- Comparison of two present sort keys.  A column never mixes the two
branches, so the cross cases are unreachable. -/
def keyLE : String ⊕ ℚ → String ⊕ ℚ → Bool
  | Sum.inl s, Sum.inl t => decide (s ≤ t)
  | Sum.inr a, Sum.inr b => decide (a ≤ b)
  | Sum.inl _, Sum.inr _ => true
  | Sum.inr _, Sum.inl _ => false

/-- Insert an element into a sorted list, before the first element it
compares `le` to. -/
def insertLE {α : Type} (le : α → α → Bool) (a : α) : List α → List α
  | [] => [a]
  | b :: bs => if le a b then a :: b :: bs else b :: insertLE le a bs

/-- Insertion sort with comparison `le`. -/
def insertionSort {α : Type} (le : α → α → Bool) : List α → List α
  | [] => []
  | a :: as => insertLE le a (insertionSort le as)

/-- Model of `data.sort_values(sort_by, ascending=not desc, na_position="last")`,
following pandas `nargsort`: rows with a missing sort key are removed
and appended at the end in their original order; the remaining rows are
sorted by key, with the row order reversed before and after the sort
for a descending sort.  The source leaves the sort `kind` at the pandas
default `'quicksort'`, which is not documented as stable; the model's
underlying sort is a concrete stable insertion sort, and no theorem in
this file relies on the order of rows with equal keys. -/
def sort_values (data : List Record) (f : SortField) (asc : Bool) : List Record :=
  let key := sortKey f
  let le : Record → Record → Bool := fun a b =>
    match key a, key b with
    | some x, some y => keyLE x y
    | _, _ => true
  let nonNa := data.filter (fun r => (key r).isSome)
  let na := data.filter (fun r => (key r).isNone)
  (if asc then insertionSort le nonNa else (insertionSort le nonNa.reverse).reverse) ++ na

/-- The page sizes offered by the `Rows per page` selectbox. -/
def pageSizes : List ℕ := [10, 25, 50, 100]

/-- Model of `max_page = (total_rows - 1) // page_size + 1` (computed by
the source only when `total_rows` is nonzero, so the `ℕ` truncated
subtraction agrees with Python's `//`). -/
def maxPage (total ps : ℕ) : ℕ := (total - 1) / ps + 1

/-- The page numbers accepted by
`st.number_input("Page", min_value=1, max_value=max_page)`; the widget
is reached only when the zero-row early return was not taken. -/
def acceptedPage (total ps p : ℕ) : Prop :=
  total ≠ 0 ∧ 1 ≤ p ∧ p ≤ maxPage total ps

/-- Model of the pagination step of `page_projections`: on zero rows the
source returns early with an empty-state message (no rows are shown);
otherwise the view is `data.iloc[start:end]` with
`start, end = (page - 1) * page_size, (page - 1) * page_size + page_size`. -/
def pageView (data : List Record) (ps p : ℕ) : List Record :=
  if data.length = 0 then [] else (data.drop ((p - 1) * ps)).take ps

/-- The configuration of the projections page controls. -/
structure QueryConfig where
  quick : String
  search : String
  team_filter : String
  sort_by : SortField
  desc : Bool
deriving DecidableEq

/-- The filter stage of `page_projections`: position filter, then name
search, then team filter (`none` when the search pattern is outside the
modelled regex fragment). -/
def applyFilters (df : List Record) (cfg : QueryConfig) : Option (List Record) :=
  (nameFilter (posFilter df cfg.quick) cfg.search).map
    (fun d => teamFilter d cfg.team_filter)

/-- The filtered-and-sorted (pre-pagination) sequence of `page_projections`. -/
def filterSort (df : List Record) (cfg : QueryConfig) : Option (List Record) :=
  (applyFilters df cfg).map (fun d => sort_values d cfg.sort_by cfg.desc)

/-- The mutable state of the app: the table built once at startup by
`df = load_data(CSV_FILE)`.  Every frame operation used by the pages
(`copy`, boolean-mask selection, `sort_values` without `inplace`,
`iloc` slicing, `to_csv`) returns a new frame, so the embedding threads
the state through explicitly. -/
structure AppState where
  df : List Record
deriving DecidableEq

/-- Model of `page_projections`: starting from `data = df.copy()`, apply
the filters, the sort and the pagination, and return the (unchanged)
app state together with the displayed view. -/
def page_projections (s : AppState) (cfg : QueryConfig) (ps p : ℕ) :
    AppState × List Record :=
  (s, match filterSort s.df cfg with
      | none => []
      | some data => pageView data ps p)

/-- Model of the selection bound of `page_compare`:
`if len(picks) > 5: st.warning(...); picks = picks[:5]`.  Returns the
(possibly truncated) selection and whether the warning was signalled. -/
def truncPicks (picks : List String) : List String × Bool :=
  if 5 < picks.length then (picks.take 5, true) else (picks, false)

/-- Model of `sub = df[df["Player"].isin(picks)]` applied to the
truncated selection: every row whose name is one of the selected names. -/
def matchedSub (df : List Record) (picks : List String) : List Record :=
  df.filter (fun r => ((truncPicks picks).1).contains r.player)

/-- Outcome of the `Total_Projection` ranking of `page_compare`. -/
inductive RankOutcome where
  | undetermined
  | singleWinner (r : Record)
  | tie (rs : List Record)
deriving DecidableEq

/-- Model of `top_tp = sub["TP_sanitized"].max()`: the maximum of the
non-missing `Total_Projection` values (`NaN`, i.e. `none`, when there
is none — pandas `max` skips `NaN`). -/
def topValue (sub : List Record) : Option ℚ :=
  (sub.filterMap Record.total_projection).max?

/-- Model of `top_rows = sub.loc[sub["TP_sanitized"] == top_tp]`: the
records whose ranking value equals `m` (a `NaN`, i.e. `none`, value
never equals `some m`). -/
def winnersOf (sub : List Record) (m : ℚ) : List Record :=
  sub.filter (fun r => decide (r.total_projection = some m))

/-- Winner determination from `top_tp`: when it is `NaN` nothing is
announced (the `pd.notna` guard fails); otherwise `top_rows` yields a
single winner when it has exactly one row, and a tie over exactly those
rows otherwise. -/
def rankFromTop (sub : List Record) : Option ℚ → RankOutcome
  | none => RankOutcome.undetermined
  | some m =>
    match winnersOf sub m with
    | [r] => RankOutcome.singleWinner r
    | tr => RankOutcome.tie tr

/-- Model of the winner determination of `page_compare`. -/
def rankOutcome (sub : List Record) : RankOutcome :=
  rankFromTop sub (topValue sub)

/-- Whether `c` is an ASCII decimal digit. -/
def isDigitCh (c : Char) : Bool := 48 ≤ c.toNat && c.toNat ≤ 57

/-- The character of one decimal digit (callers only pass values below 10). -/
def digitChar : ℕ → Char
  | 0 => '0'
  | 1 => '1'
  | 2 => '2'
  | 3 => '3'
  | 4 => '4'
  | 5 => '5'
  | 6 => '6'
  | 7 => '7'
  | 8 => '8'
  | _ => '9'

/-- Value of a big-endian digit-character list (leading zeros allowed). -/
def charsVal (cs : List Char) : ℕ :=
  cs.foldl (fun a c => 10 * a + (c.toNat - 48)) 0

/-- Little-endian base-10 digits of `n`, with explicit fuel so that the
definition is structurally recursive. -/
def natDigitsAux : ℕ → ℕ → List ℕ
  | 0, _ => []
  | _ + 1, 0 => []
  | fuel + 1, n + 1 => ((n + 1) % 10) :: natDigitsAux fuel ((n + 1) / 10)

/-- Little-endian base-10 digits of `n` (empty for `0`). -/
def natDigits (n : ℕ) : List ℕ := natDigitsAux n n

/-- Big-endian decimal characters of `n` (empty for `0`). -/
def natToCharsRaw (n : ℕ) : List Char := ((natDigits n).map digitChar).reverse

/-- Big-endian decimal characters of `n`, with `"0"` for `0`. -/
def natToChars (n : ℕ) : List Char :=
  if n = 0 then ['0'] else natToCharsRaw n

/-- Left-pad a digit-character list with zeros to length `e`. -/
def padZeros (e : ℕ) (cs : List Char) : List Char :=
  List.replicate (e - cs.length) '0' ++ cs

/-- Number of times `p` divides `n`, with explicit fuel so that the
definition is structurally recursive. -/
def factorCountAux (p : ℕ) : ℕ → ℕ → ℕ
  | 0, _ => 0
  | fuel + 1, n => if 2 ≤ p ∧ n ≠ 0 ∧ n % p = 0 then factorCountAux p fuel (n / p) + 1 else 0

/-- Number of times `p` divides `n`. -/
def factorCount (p n : ℕ) : ℕ := factorCountAux p n n

/-- The least decimal-fraction length of a fraction with denominator `d`
(meaningful when `d` divides a power of ten). -/
def decExp (d : ℕ) : ℕ := max (factorCount 2 d) (factorCount 5 d)

/-- Plain-decimal rendering of a float value, as `str(float)` writes it
for values with an exact short decimal form: optional minus sign,
integer digits, a decimal point, and the fraction digits (`"x.0"` for
integral values).  Exact for every `q` whose denominator divides
`10 ^ decExp q.den`. -/
def renderDecimal (q : ℚ) : String :=
  let e := decExp q.den
  let N := q.num.natAbs * 10 ^ e / q.den
  let frac := if e = 0 then ['0'] else padZeros e (natToCharsRaw (N % 10 ^ e))
  String.mk ((if q.num < 0 then ['-'] else []) ++ natToChars (N / 10 ^ e) ++ '.' :: frac)

/-- Rendering of one numeric cell for `to_csv`: `NaN` becomes an empty
cell. -/
def renderOpt : Option ℚ → String
  | none => ""
  | some q => renderDecimal q

/-- Value of a numeral split at its (first) decimal point: `ip` is the
integer part, `rest` is what follows it (`'.'` and the fraction part
when a point is present).  A second point or a non-digit makes the
numeral unparseable. -/
def parseParts (ip : List Char) : List Char → Option ℚ
  | [] => if ip ≠ [] ∧ ip.all isDigitCh then some ((charsVal ip : ℚ)) else none
  | _ :: fp =>
    if fp.any (fun c => c = '.') then none
    else if (ip ≠ [] ∨ fp ≠ []) ∧ ip.all isDigitCh ∧ fp.all isDigitCh then
      some (((charsVal ip * 10 ^ fp.length + charsVal fp : ℕ) : ℚ) / ((10 ^ fp.length : ℕ) : ℚ))
    else none

/-- Parse an unsigned decimal numeral: digits with at most one decimal
point and at least one digit in total.  This is the fragment of the
`pd.to_numeric(..., errors="coerce")` number grammar that the app's own
exports use (no exponent part, no `inf`/`nan` words, no underscores). -/
def parseUnsigned (cs : List Char) : Option ℚ :=
  parseParts (cs.takeWhile (fun c => c ≠ '.')) (cs.dropWhile (fun c => c ≠ '.'))

/-- Parse an optionally signed decimal numeral. -/
def parseSigned : List Char → Option ℚ
  | [] => none
  | c :: cs =>
    if c = '-' then (parseUnsigned cs).map (fun q => -q)
    else if c = '+' then parseUnsigned cs
    else parseUnsigned (c :: cs)

/-- Model of numeric coercion of one cell
(`pd.to_numeric(..., errors="coerce")` after `pd.read_csv`): whitespace
is stripped, an optional sign is read, and an unparseable cell becomes
missing (`none`), never an error. -/
def parseNumeric (s : String) : Option ℚ :=
  parseSigned (stripChars s.data)

/-- The default `pd.read_csv` NA sentinels: a cell equal to one of these
is read as `NaN`. -/
def naStrings : List String :=
  ["", "#N/A", "#N/A N/A", "#NA", "-1.#IND", "-1.#QNAN", "-NaN", "-nan",
    "1.#IND", "1.#QNAN", "<NA>", "N/A", "NA", "NULL", "NaN", "None", "n/a", "nan", "null"]

/-- Model of one string cell of `load_data`'s output: `pd.read_csv` turns
an NA sentinel into `NaN`, `astype(str)` then renders `NaN` as the
string `"nan"`, and `.str.strip()` trims the rest. -/
def strCell (cell : String) : String :=
  if naStrings.contains cell then "nan" else pyStrip cell

/-- The exceptions `pd.read_csv` raises on a bad file: a missing path or
text that is not parseable as delimited tabular data.  The source
defines no `LoadError` type and has no handler, so these are the only
failure values in the model. -/
inductive PyExn where
  | fileNotFound
  | parserError
deriving DecidableEq

/-- The file-system input of `pd.read_csv(path)`: a missing file, an
unparseable file, or delimited tabular text given as rows of cells. -/
inductive FileContent where
  | missing
  | malformed
  | csv (rows : List (List String))

/-- Model of `pd.read_csv`: a missing file raises `FileNotFoundError`
and an unparseable file raises a parser error; both propagate as
exceptions (`Except.error`). -/
def read_csv : FileContent → Except PyExn (List (List String))
  | FileContent.missing => Except.error PyExn.fileNotFound
  | FileContent.malformed => Except.error PyExn.parserError
  | FileContent.csv rows => Except.ok rows

/-- The canonical column set and order of `load_data`. -/
def headerCols : List String :=
  ["Player", "Team", "Pos", "Base_Projection", "Proj TD PTS", "Total_Projection"]

/-- Model of the header normalisation of `load_data`: rename
`"Proj TD Pts"` to `"Proj TD PTS"` when only the former is present. -/
def renameHdr (hdr : List String) : List String :=
  if hdr.contains "Proj TD Pts" ∧ ¬ hdr.contains "Proj TD PTS" then
    hdr.map (fun c => if c = "Proj TD Pts" then "Proj TD PTS" else c)
  else hdr

/-- The cell of column `c` in a row, by header position. -/
def colCell (hdr row : List String) (c : String) : String :=
  match hdr.findIdx? (fun h => h = c) with
  | some i => row.getD i ""
  | none => ""

/-- One record of `load_data`'s output: string columns are cleaned with
`astype(str).str.strip()`, numeric columns are coerced with
`pd.to_numeric(errors="coerce")`. -/
def recordOfRow (hdr row : List String) : Record :=
  { player := strCell (colCell hdr row "Player")
    team := strCell (colCell hdr row "Team")
    pos := strCell (colCell hdr row "Pos")
    base_projection := parseNumeric (colCell hdr row "Base_Projection")
    proj_td_pts := parseNumeric (colCell hdr row "Proj TD PTS")
    total_projection := parseNumeric (colCell hdr row "Total_Projection") }

/-- The normalisation steps of `load_data` on the parsed rows (header
rename, string cleaning, numeric coercion, canonical column order).
The embedding fixes the full six-column schema (the spec's `Record`): a
header missing one of the canonical columns, ragged rows, or a file
with no rows are outside the modelled fragment and are mapped to
`parserError` (the source would instead produce a narrower frame); no
theorem in this file depends on that branch. -/
def load_rows : List (List String) → Except PyExn (List Record)
  | [] => Except.error PyExn.parserError
  | hdr0 :: body =>
    let hdr := renameHdr hdr0
    if (headerCols.all (fun c => hdr.contains c)) ∧
        (body.all (fun row => row.length = hdr.length)) then
      Except.ok (body.map (recordOfRow hdr))
    else Except.error PyExn.parserError

/-- Model of `load_data`: read the file with `pd.read_csv`, then
normalise it.  The source has no try/except and defines no `LoadError`:
any exception of `pd.read_csv` propagates out of `load_data`
unconverted. -/
def load_data (f : FileContent) : Except PyExn (List Record) :=
  match read_csv f with
  | Except.error e => Except.error e
  | Except.ok rows => load_rows rows

/-- Model of `data.to_csv(index=False)` at the cell level: the header
row followed by one row per record in the canonical column order; a
missing numeric value is written as an empty cell. -/
def toCsvCells (view : List Record) : List (List String) :=
  headerCols :: view.map (fun r =>
    [r.player, r.team, r.pos, renderOpt r.base_projection, renderOpt r.proj_td_pts,
      renderOpt r.total_projection])

/-- From the spec's words (claim C5): `m` is the maximum of the
non-absent ranking values of `sub`. -/
def IsTopValue (sub : List Record) (m : ℚ) : Prop :=
  (∃ r ∈ sub, r.total_projection = some m) ∧
    ∀ r ∈ sub, ∀ v, r.total_projection = some v → v ≤ m

/-- A string cell survives the export/reload cycle: an NA sentinel only
if it is the canonical `"nan"` marker itself, anything else only if it
is already stripped (which the spec's data model guarantees for loaded
tables). -/
def strOkB (s : String) : Bool :=
  if naStrings.contains s then s == "nan" else pyStrip s == s

/-- A numeric cell survives the export/reload cycle: missing, or with a
denominator dividing a power of ten (true of every value parsed from
decimal text, hence of every loaded table). -/
def numOkB : Option ℚ → Bool
  | none => true
  | some q => decide (q.den ∣ 10 ^ decExp q.den)

/-- A record whose cells all survive the export/reload cycle. -/
def RoundtripSafeB (r : Record) : Bool :=
  strOkB r.player && strOkB r.team && strOkB r.pos &&
    numOkB r.base_projection && numOkB r.proj_td_pts && numOkB r.total_projection

/-- A table in which one selected name appears on six records (names are
not unique identifiers in the source data). -/
def dupTable : List Record :=
  List.replicate 6 ⟨"Alpha", "T", "RB", none, none, some 1⟩

/-! ## Lemmas about the regex fragment (claim C1) -/

lemma parsePattern_of_plain (cs : List Char) (h : ∀ c ∈ cs, isMetaChar c = false) :
    parsePattern cs = some (cs.map RAtom.lit) := by
  induction cs with
  | nil => rfl
  | cons c cs ih =>
    have hc : isMetaChar c = false := h c (List.mem_cons_self c cs)
    have hdot : c ≠ '.' := by
      intro he
      rw [he] at hc
      exact absurd hc (by decide)
    simp [parsePattern, hdot, hc, ih (fun d hd => h d (List.mem_cons_of_mem c hd))]

lemma matchesAt_lit_iff (p s : List Char) :
    matchesAt (p.map RAtom.lit) s = true ↔ (p.map lowerChar) <+: (s.map lowerChar) := by
  induction p generalizing s with
  | nil => simp [matchesAt]
  | cons c p ih =>
    cases s with
    | nil => simp [matchesAt]
    | cons d s => simp [matchesAt, atomMatches, List.cons_prefix_cons, ih]

lemma reSearch_lit_iff (p s : List Char) :
    reSearch (p.map RAtom.lit) s = true ↔ (p.map lowerChar) <:+: (s.map lowerChar) := by
  induction s with
  | nil =>
    rw [reSearch]
    simp [matchesAt_lit_iff]
  | cons c s ih =>
    rw [reSearch]
    simp [matchesAt_lit_iff, ih, List.infix_cons_iff]

/-- Claim C1 (amended): a non-empty `name_query` is interpreted as a
regular expression searched case-insensitively against the name
(`str.contains` keeps its `regex=True` default); for a query containing
no regex metacharacter this coincides with case-insensitive literal
substring matching, and an empty query applies no filter. -/
theorem nameFilter_plain_query_is_substring_filter (data : List Record) (q : String)
    (h : ∀ c ∈ q.data, isMetaChar c = false) :
    nameFilter data q =
      some (if q = "" then data else data.filter (fun r => specContainsCI r.player q)) := by
  by_cases hq : q = ""
  · simp [nameFilter, hq]
  · rw [nameFilter, if_neg hq, if_neg hq, parsePattern_of_plain q.data h]
    simp only [Option.map_some']
    congr 1
    apply List.filter_congr
    intro r _
    have h1 := reSearch_lit_iff q.data r.player.data
    have h2 : specContainsCI r.player q =
        decide ((q.data.map lowerChar) <:+: (r.player.data.map lowerChar)) := rfl
    rw [h2]
    cases hb : reSearch (q.data.map RAtom.lit) r.player.data with
    | false =>
      symm
      rw [decide_eq_false_iff_not]
      intro hin
      have hx := h1.mpr hin
      rw [hb] at hx
      exact Bool.noConfusion hx
    | true =>
      symm
      simpa using h1.mp hb

/-- Claim C1, counterexample: on the one-record table with name `"AB"`
and the query `"."`, the source's name filter keeps the record (the
regex `.` matches any character), while `"."` is not a literal
substring of `"AB"`; so the filter does not keep exactly the literal
substring matches. -/
theorem nameFilter_dot_query_counterexample :
    nameFilter [⟨"AB", "T", "RB", none, none, none⟩] "." =
        some [⟨"AB", "T", "RB", none, none, none⟩] ∧
      specContainsCI "AB" "." = false := by
  exact ⟨by decide, by decide⟩

/-- Witness for the amended claim C1 theorem at a concrete input. -/
theorem nameFilter_plain_query_witness :
    (∀ c ∈ ("ab" : String).data, isMetaChar c = false) ∧
      nameFilter [⟨"Gabe", "T", "RB", none, none, none⟩] "ab" =
        some (if ("ab" : String) = "" then [⟨"Gabe", "T", "RB", none, none, none⟩]
          else [⟨"Gabe", "T", "RB", none, none, none⟩].filter
            (fun r => specContainsCI r.player "ab")) :=
  ⟨by decide, nameFilter_plain_query_is_substring_filter _ "ab" (by decide)⟩

/-! ## Pagination (claim C3) -/

/-- Claim C3: for every filtered-and-sorted sequence, every accepted
page index lies in `[1, max 1 ⌈total / page_size⌉]`, and the displayed
view is the slice `[(page-1)*page_size, page*page_size)`; with zero
rows the source takes the empty-state early return, whose (empty) view
equals the slice at the minimal page index `1`. -/
theorem page_index_clamped_and_view_is_slice (df : List Record) (cfg : QueryConfig)
    (data : List Record) (ps p : ℕ) (hps : ps ∈ pageSizes)
    (hdata : filterSort df cfg = some data) :
    (acceptedPage data.length ps p →
      (1 ≤ p ∧ p ≤ max 1 ((data.length + ps - 1) / ps)) ∧
      pageView data ps p = (data.drop ((p - 1) * ps)).take ps) ∧
    (data.length = 0 → pageView data ps 1 = (data.drop ((1 - 1) * ps)).take ps) := by
  have hps0 : 0 < ps := by
    simp [pageSizes] at hps
    rcases hps with h | h | h | h <;> omega
  constructor
  · rintro ⟨hne, h1, h2⟩
    constructor
    · refine ⟨h1, ?_⟩
      have hlen : 1 ≤ data.length := Nat.pos_of_ne_zero hne
      have he : data.length + ps - 1 = (data.length - 1) + ps := by omega
      have hdiv : (data.length + ps - 1) / ps = (data.length - 1) / ps + 1 := by
        rw [he, Nat.add_div_right _ hps0]
      calc p ≤ maxPage data.length ps := h2
        _ = (data.length + ps - 1) / ps := by rw [maxPage, hdiv]
        _ ≤ max 1 ((data.length + ps - 1) / ps) := le_max_right _ _
    · rw [pageView, if_neg hne]
  · intro h0
    have hnil : data = [] := List.length_eq_zero.mp h0
    subst hnil
    simp [pageView]

/-- A one-row table used by the claim C3 witness. -/
def c3Table : List Record := [⟨"A", "T", "RB", none, none, some 3⟩]

/-- The all-pass configuration used by the claim C3 witness. -/
def c3Cfg : QueryConfig := ⟨"All", "", "", SortField.total_projection, true⟩

/-- Witness for the claim C3 theorem at a concrete input. -/
theorem page_index_witness :
    10 ∈ pageSizes ∧
      filterSort c3Table c3Cfg = some c3Table ∧
      ((acceptedPage c3Table.length 10 1 →
        (1 ≤ 1 ∧ 1 ≤ max 1 ((c3Table.length + 10 - 1) / 10)) ∧
        pageView c3Table 10 1 = (c3Table.drop ((1 - 1) * 10)).take 10) ∧
      (c3Table.length = 0 →
        pageView c3Table 10 1 = (c3Table.drop ((1 - 1) * 10)).take 10)) :=
  ⟨by decide, by decide,
    page_index_clamped_and_view_is_slice c3Table c3Cfg c3Table 10 1 (by decide) (by decide)⟩

/-! ## Comparison selection (claims C6 and C10) -/

/-- Claim C6: a selection longer than five entries is truncated to its
first five in selection order, the `TooManySelected` warning is
signalled (second component `true`), and the comparison proceeds with
the truncated selection. -/
theorem compare_truncates_to_first_five (picks : List String) (df : List Record)
    (h : 5 < picks.length) :
    truncPicks picks = (picks.take 5, true) ∧
      matchedSub df picks = df.filter (fun r => (picks.take 5).contains r.player) := by
  constructor
  · rw [truncPicks, if_pos h]
  · rw [matchedSub, truncPicks, if_pos h]

/-- Witness for the claim C6 theorem: seven selected names. -/
theorem compare_truncates_witness :
    5 < (["A", "B", "C", "D", "E", "F", "G"] : List String).length ∧
      (truncPicks ["A", "B", "C", "D", "E", "F", "G"] =
          (["A", "B", "C", "D", "E", "F", "G"].take 5, true) ∧
        matchedSub [] ["A", "B", "C", "D", "E", "F", "G"] =
          List.filter (fun r => (["A", "B", "C", "D", "E", "F", "G"].take 5).contains r.player)
            []) :=
  ⟨by decide, compare_truncates_to_first_five ["A", "B", "C", "D", "E", "F", "G"] [] (by decide)⟩

/-- Claim C10: the matched subset of the comparison consists of every
record whose name equals one of the first `min 5 picks.length` selected
names; the bound is on names, not records, so with a duplicated name
the matched subset can exceed five records. -/
theorem matched_subset_bound_is_on_names :
    (∀ (df : List Record) (picks : List String),
        matchedSub df picks = df.filter (fun r => (picks.take 5).contains r.player)) ∧
      5 < (matchedSub dupTable ["Alpha"]).length := by
  constructor
  · intro df picks
    rw [matchedSub, truncPicks]
    split
    · rfl
    · next h =>
      have ht : picks.take 5 = picks := List.take_of_length_le (by omega)
      rw [ht]
  · decide

/-! ## Filter stage totals (claim C7) -/

lemma length_insertLE {α : Type} (le : α → α → Bool) (a : α) (l : List α) :
    (insertLE le a l).length = l.length + 1 := by
  induction l with
  | nil => rfl
  | cons b bs ih =>
    rw [insertLE]
    split
    · rfl
    · simp [ih]

lemma length_insertionSort {α : Type} (le : α → α → Bool) (l : List α) :
    (insertionSort le l).length = l.length := by
  induction l with
  | nil => rfl
  | cons a as ih =>
    rw [insertionSort, length_insertLE, ih]
    rfl

lemma length_sort_values (data : List Record) (f : SortField) (asc : Bool) :
    (sort_values data f asc).length = data.length := by
  simp only [sort_values, List.length_append]
  have hpart := List.length_eq_length_filter_add (l := data) (fun r => (sortKey f r).isSome)
  have hco : data.filter (fun r => (sortKey f r).isNone) =
      data.filter (fun r => !(sortKey f r).isSome) := by
    apply List.filter_congr
    intro r _
    cases sortKey f r <;> rfl
  cases asc <;>
    simp [length_insertionSort, hco] <;> omega

/-- Claim C7: with position `All`, an empty search string and an empty
team filter, the filter stage keeps the whole table, and the total row
count of the filtered-and-sorted sequence equals the table length, for
every sort configuration. -/
theorem no_filters_keeps_all_rows (df : List Record) (f : SortField) (d : Bool) :
    applyFilters df ⟨"All", "", "", f, d⟩ = some df ∧
      (filterSort df ⟨"All", "", "", f, d⟩).map List.length = some df.length := by
  have h1 : applyFilters df ⟨"All", "", "", f, d⟩ = some df := by
    simp [applyFilters, posFilter, nameFilter, teamFilter]
  exact ⟨h1, by simp [filterSort, h1, length_sort_values]⟩

/-! ## Purity of the projections page (claim C9) -/

/-- Claim C9: running the query pipeline returns the app state
unchanged — the loaded table is never mutated (the pipeline starts from
`data = df.copy()` and every frame operation used returns a new
frame). -/
theorem page_projections_leaves_table_unchanged (s : AppState) (cfg : QueryConfig)
    (ps p : ℕ) : (page_projections s cfg ps p).1 = s := rfl

/-! ## Comparison ranking (claim C5) -/

lemma topValue_eq_none_iff (sub : List Record) :
    topValue sub = none ↔ ∀ r ∈ sub, r.total_projection = none := by
  rw [topValue, List.max?_eq_none_iff, List.filterMap_eq_nil_iff]

lemma topValue_eq_some_iff (sub : List Record) (m : ℚ) :
    topValue sub = some m ↔ IsTopValue sub m := by
  have anti : Std.Antisymm (fun a b : ℚ => a ≤ b) := ⟨fun h h' => le_antisymm h h'⟩
  rw [topValue,
    @List.max?_eq_some_iff ℚ m _ _ anti (fun a => le_refl a) (fun a b => max_choice a b)
      (fun a b c => max_le_iff)]
  constructor
  · rintro ⟨hmem, hle⟩
    obtain ⟨r, hr, hrt⟩ := List.mem_filterMap.mp hmem
    exact ⟨⟨r, hr, hrt⟩,
      fun r' hr' v hv => hle v (List.mem_filterMap.mpr ⟨r', hr', hv⟩)⟩
  · rintro ⟨⟨r, hr, hrt⟩, hub⟩
    refine ⟨List.mem_filterMap.mpr ⟨r, hr, hrt⟩, fun v hv => ?_⟩
    obtain ⟨r', hr', hrv⟩ := List.mem_filterMap.mp hv
    exact hub r' hr' v hrv

/-- Claim C5: for a non-empty selection (the ranking field is part of
the fixed six-column schema): with no non-absent ranking value among
the matched records the outcome is `undetermined`; with exactly one
matched record at the maximum of the non-absent values the outcome is
`singleWinner` of that record; with at least two matched records at the
maximum the outcome is `tie` of exactly those records. -/
theorem compare_ranking_trichotomy (df : List Record) (picks : List String)
    (hne : picks ≠ []) :
    ((∀ r ∈ matchedSub df picks, r.total_projection = none) →
        rankOutcome (matchedSub df picks) = RankOutcome.undetermined) ∧
      (∀ m r, IsTopValue (matchedSub df picks) m →
        winnersOf (matchedSub df picks) m = [r] →
        rankOutcome (matchedSub df picks) = RankOutcome.singleWinner r) ∧
      (∀ m, IsTopValue (matchedSub df picks) m →
        2 ≤ (winnersOf (matchedSub df picks) m).length →
        rankOutcome (matchedSub df picks) =
          RankOutcome.tie (winnersOf (matchedSub df picks) m)) := by
  refine ⟨?_, ?_, ?_⟩
  · intro h
    rw [rankOutcome, (topValue_eq_none_iff _).mpr h]
    rfl
  · intro m r htop hfilt
    rw [rankOutcome, (topValue_eq_some_iff _ _).mpr htop, rankFromTop, hfilt]
  · intro m htop hlen
    obtain ⟨x, y, t, hf⟩ :
        ∃ x y t, winnersOf (matchedSub df picks) m = x :: y :: t := by
      cases hw : winnersOf (matchedSub df picks) m with
      | nil =>
        rw [hw] at hlen
        simp at hlen
      | cons x l =>
        cases l with
        | nil =>
          rw [hw] at hlen
          simp at hlen
        | cons y t => exact ⟨x, y, t, rfl⟩
    rw [rankOutcome, (topValue_eq_some_iff _ _).mpr htop, rankFromTop, hf]

/-- The spec's worked ranking example: `A` and `B` at 10, `C` at 5. -/
def tieTable : List Record :=
  [⟨"A", "T", "RB", none, none, some 10⟩, ⟨"B", "T", "RB", none, none, some 10⟩,
    ⟨"C", "T", "RB", none, none, some 5⟩]

/-- Witness for the claim C5 theorem at the spec's worked example. -/
theorem compare_ranking_witness :
    (["A", "B", "C"] : List String) ≠ [] ∧
      (((∀ r ∈ matchedSub tieTable ["A", "B", "C"], r.total_projection = none) →
          rankOutcome (matchedSub tieTable ["A", "B", "C"]) = RankOutcome.undetermined) ∧
        (∀ m r, IsTopValue (matchedSub tieTable ["A", "B", "C"]) m →
          winnersOf (matchedSub tieTable ["A", "B", "C"]) m = [r] →
          rankOutcome (matchedSub tieTable ["A", "B", "C"]) = RankOutcome.singleWinner r) ∧
        (∀ m, IsTopValue (matchedSub tieTable ["A", "B", "C"]) m →
          2 ≤ (winnersOf (matchedSub tieTable ["A", "B", "C"]) m).length →
          rankOutcome (matchedSub tieTable ["A", "B", "C"]) =
            RankOutcome.tie (winnersOf (matchedSub tieTable ["A", "B", "C"]) m))) :=
  ⟨by decide, compare_ranking_trichotomy tieTable ["A", "B", "C"] (by decide)⟩

/-! ## Load failures (claim C4) -/

/-- Claim C4 (code evaluation): `load_data` has no exception handler
and the source defines no `LoadError` type; on a missing file it fails
with the raw `FileNotFoundError` of `pd.read_csv`, and on text that is
not parseable as delimited tabular data with the raw parser error — the
exception is propagated unconverted.  No table is produced in either
case. -/
theorem load_failure_propagates_raw_exception :
    load_data FileContent.missing = Except.error PyExn.fileNotFound ∧
      load_data FileContent.malformed = Except.error PyExn.parserError :=
  ⟨rfl, rfl⟩

/-! ## Decimal digits and their characters (claim C8) -/

lemma digitChar_spec (d : ℕ) (hd : d < 10) :
    isDigitCh (digitChar d) = true ∧ (digitChar d).toNat - 48 = d := by
  interval_cases d <;> exact ⟨by decide, by decide⟩

lemma isDigitCh_not_dot {c : Char} (h : isDigitCh c = true) : c ≠ '.' := by
  intro he
  rw [he] at h
  exact absurd h (by decide)

lemma isDigitCh_not_minus {c : Char} (h : isDigitCh c = true) : c ≠ '-' := by
  intro he
  rw [he] at h
  exact absurd h (by decide)

lemma isDigitCh_not_plus {c : Char} (h : isDigitCh c = true) : c ≠ '+' := by
  intro he
  rw [he] at h
  exact absurd h (by decide)

lemma isDigitCh_not_ws {c : Char} (h : isDigitCh c = true) : c.isWhitespace = false := by
  by_contra hw
  rw [Bool.not_eq_false] at hw
  have h48 : 48 ≤ c.toNat ∧ c.toNat ≤ 57 := by simpa [isDigitCh] using h
  have hor : c = ' ' ∨ c = '\t' ∨ c = '\x0d' ∨ c = '\n' := by
    simpa [Char.isWhitespace, or_assoc] using hw
  rcases hor with h1 | h1 | h1 | h1 <;> rw [h1] at h48 <;> exact absurd h48 (by decide)

lemma charsVal_append_singleton (l : List Char) (c : Char) :
    charsVal (l ++ [c]) = 10 * charsVal l + (c.toNat - 48) := by
  rw [charsVal, List.foldl_append]
  rfl

lemma charsVal_digits (L : List ℕ) (h : ∀ d ∈ L, d < 10) :
    charsVal ((L.map digitChar).reverse) = Nat.ofDigits 10 L := by
  induction L with
  | nil => rfl
  | cons d L ih =>
    have hd := h d (List.mem_cons_self d L)
    rw [List.map_cons, List.reverse_cons, charsVal_append_singleton,
      ih (fun x hx => h x (List.mem_cons_of_mem d hx)), Nat.ofDigits_cons,
      (digitChar_spec d hd).2]
    ring

lemma natDigitsAux_lt (fuel n : ℕ) : ∀ d ∈ natDigitsAux fuel n, d < 10 := by
  induction fuel generalizing n with
  | zero =>
    intro d hd
    simp [natDigitsAux] at hd
  | succ fuel ih =>
    cases n with
    | zero =>
      intro d hd
      simp [natDigitsAux] at hd
    | succ n =>
      intro d hd
      rw [natDigitsAux] at hd
      rcases List.mem_cons.mp hd with h | h
      · subst h
        exact Nat.mod_lt _ (by omega)
      · exact ih _ d h

lemma ofDigits_natDigitsAux (fuel : ℕ) : ∀ n : ℕ, n ≤ fuel →
    Nat.ofDigits 10 (natDigitsAux fuel n) = n := by
  induction fuel with
  | zero =>
    intro n hn
    have : n = 0 := by omega
    subst this
    rfl
  | succ fuel ih =>
    intro n hn
    cases n with
    | zero => rfl
    | succ n =>
      have hdiv : (n + 1) / 10 ≤ fuel := by
        have := Nat.div_lt_self (Nat.succ_pos n) (by omega : 1 < 10)
        omega
      rw [natDigitsAux, Nat.ofDigits_cons, ih _ hdiv]
      have := Nat.div_add_mod (n + 1) 10
      omega

lemma charsVal_natToCharsRaw (n : ℕ) : charsVal (natToCharsRaw n) = n := by
  rw [natToCharsRaw, natDigits, charsVal_digits _ (natDigitsAux_lt n n),
    ofDigits_natDigitsAux n n le_rfl]

lemma charsVal_natToChars (n : ℕ) : charsVal (natToChars n) = n := by
  rw [natToChars]
  split
  · next h =>
    rw [h]
    rfl
  · exact charsVal_natToCharsRaw n

lemma all_digit_natToCharsRaw (n : ℕ) : ∀ c ∈ natToCharsRaw n, isDigitCh c = true := by
  intro c hc
  rw [natToCharsRaw, List.mem_reverse, List.mem_map] at hc
  obtain ⟨d, hd, hcd⟩ := hc
  cases hcd
  exact (digitChar_spec d (natDigitsAux_lt n n d hd)).1

lemma all_digit_natToChars (n : ℕ) : ∀ c ∈ natToChars n, isDigitCh c = true := by
  rw [natToChars]
  split
  · intro c hc
    simp at hc
    rw [hc]
    decide
  · exact all_digit_natToCharsRaw n

lemma natToChars_ne_nil (n : ℕ) : natToChars n ≠ [] := by
  rw [natToChars]
  split
  · simp
  · next h =>
    cases n with
    | zero => exact absurd rfl h
    | succ n => simp [natToCharsRaw, natDigits, natDigitsAux]

lemma foldl_charsVal_replicate (k : ℕ) :
    List.foldl (fun a c => 10 * a + (c.toNat - 48)) 0 (List.replicate k '0') = 0 := by
  induction k with
  | zero => rfl
  | succ k ih =>
    rw [List.replicate_succ, List.foldl_cons]
    simpa using ih

lemma charsVal_padZeros (e : ℕ) (cs : List Char) :
    charsVal (padZeros e cs) = charsVal cs := by
  rw [padZeros, charsVal, List.foldl_append, foldl_charsVal_replicate]
  rfl

lemma length_padZeros (e : ℕ) (cs : List Char) (h : cs.length ≤ e) :
    (padZeros e cs).length = e := by
  simp [padZeros]
  omega

lemma all_digit_padZeros (e : ℕ) (cs : List Char) (h : ∀ c ∈ cs, isDigitCh c = true) :
    ∀ c ∈ padZeros e cs, isDigitCh c = true := by
  intro c hc
  rw [padZeros, List.mem_append] at hc
  rcases hc with hc | hc
  · rw [List.eq_of_mem_replicate hc]
    decide
  · exact h c hc

lemma natDigitsAux_length_le (fuel : ℕ) : ∀ n e : ℕ, n ≤ fuel → n < 10 ^ e →
    (natDigitsAux fuel n).length ≤ e := by
  induction fuel with
  | zero =>
    intro n e _ _
    simp [natDigitsAux]
  | succ fuel ih =>
    intro n e hf h
    cases n with
    | zero => simp [natDigitsAux]
    | succ n =>
      cases e with
      | zero =>
        simp at h
      | succ e =>
        rw [natDigitsAux, List.length_cons]
        have h1 : (n + 1) / 10 ≤ fuel := by
          have := Nat.div_lt_self (Nat.succ_pos n) (by omega : 1 < 10)
          omega
        have h2 : (n + 1) / 10 < 10 ^ e := by
          rw [Nat.div_lt_iff_lt_mul (by omega : 0 < 10)]
          calc n + 1 < 10 ^ (e + 1) := h
            _ = 10 ^ e * 10 := by ring
        exact Nat.succ_le_succ (ih _ _ h1 h2)

lemma natToCharsRaw_length_le (n e : ℕ) (h : n < 10 ^ e) :
    (natToCharsRaw n).length ≤ e := by
  simpa [natToCharsRaw, natDigits] using natDigitsAux_length_le n n e le_rfl h

/-! ## Splitting rendered numerals (claim C8) -/

lemma takeWhile_append_cons {p : Char → Bool} (l : List Char) (c : Char) (m : List Char)
    (hl : ∀ x ∈ l, p x = true) (hc : p c = false) :
    (l ++ c :: m).takeWhile p = l ∧ (l ++ c :: m).dropWhile p = c :: m := by
  induction l with
  | nil => simp [List.takeWhile_cons, List.dropWhile_cons, hc]
  | cons a l ih =>
    have ha := hl a (List.mem_cons_self a l)
    have ih' := ih (fun x hx => hl x (List.mem_cons_of_mem a hx))
    simp [List.takeWhile_cons, List.dropWhile_cons, ha, ih'.1, ih'.2]

lemma dropWhile_all_false (p : Char → Bool) (l : List Char)
    (h : ∀ c ∈ l, p c = false) : l.dropWhile p = l := by
  cases l with
  | nil => rfl
  | cons c cs => simp [List.dropWhile_cons, h c (List.mem_cons_self c cs)]

lemma stripChars_of_no_ws (cs : List Char) (h : ∀ c ∈ cs, c.isWhitespace = false) :
    stripChars cs = cs := by
  rw [stripChars, dropWhile_all_false _ _ h,
    dropWhile_all_false _ _ (fun c hc => h c (List.mem_reverse.mp hc)),
    List.reverse_reverse]

lemma frac_digits (N e : ℕ) :
    ∀ c ∈ (if e = 0 then ['0'] else padZeros e (natToCharsRaw (N % 10 ^ e))),
      isDigitCh c = true := by
  split
  · intro c hc
    simp at hc
    rw [hc]
    decide
  · exact all_digit_padZeros _ _ (all_digit_natToCharsRaw _)

lemma any_dot_false {l : List Char} (h : ∀ c ∈ l, isDigitCh c = true) :
    (l.any fun c => c = '.') = false := by
  rw [List.any_eq_false]
  intro c hc
  simpa using isDigitCh_not_dot (h c hc)

lemma parseUnsigned_render (N e : ℕ) :
    parseUnsigned (natToChars (N / 10 ^ e) ++ '.' ::
        (if e = 0 then ['0'] else padZeros e (natToCharsRaw (N % 10 ^ e)))) =
      some ((N : ℚ) / ((10 : ℚ) ^ e)) := by
  set ip := natToChars (N / 10 ^ e) with hip
  set frac := (if e = 0 then ['0'] else padZeros e (natToCharsRaw (N % 10 ^ e))) with hfrac
  have hipd : ∀ c ∈ ip, isDigitCh c = true := all_digit_natToChars _
  have hfd : ∀ c ∈ frac, isDigitCh c = true := frac_digits N e
  have hsplit := takeWhile_append_cons (p := fun c => decide (c ≠ '.')) ip '.' frac
    (fun x hx => by simpa using isDigitCh_not_dot (hipd x hx)) (by simp)
  rw [parseUnsigned, hsplit.1, hsplit.2, parseParts]
  rw [any_dot_false hfd]
  rw [if_neg (by simp), if_pos ⟨Or.inl (natToChars_ne_nil _),
    List.all_eq_true.mpr hipd, List.all_eq_true.mpr hfd⟩]
  congr 1
  by_cases he : e = 0
  · subst he
    have hf0 : frac = ['0'] := by rw [hfrac, if_pos rfl]
    rw [hf0]
    have hcv : charsVal ip = N := by
      rw [hip, charsVal_natToChars]
      norm_num
    rw [hcv]
    have hc0 : charsVal ['0'] = 0 := by decide
    rw [hc0]
    push_cast
    norm_num
  · have hmod : N % 10 ^ e < 10 ^ e := Nat.mod_lt _ (by positivity)
    have hflen : frac.length = e := by
      rw [hfrac, if_neg he]
      exact length_padZeros _ _ (natToCharsRaw_length_le _ _ hmod)
    have hfcv : charsVal frac = N % 10 ^ e := by
      rw [hfrac, if_neg he, charsVal_padZeros, charsVal_natToCharsRaw]
    have hicv : charsVal ip = N / 10 ^ e := by rw [hip, charsVal_natToChars]
    rw [hflen, hfcv, hicv]
    have hrecomb : N / 10 ^ e * 10 ^ e + N % 10 ^ e = N := by
      rw [Nat.mul_comm (N / 10 ^ e) (10 ^ e)]
      exact Nat.div_add_mod N (10 ^ e)
    rw [hrecomb]
    push_cast
    ring

lemma parseNumeric_renderDecimal (q : ℚ) (h : q.den ∣ 10 ^ decExp q.den) :
    parseNumeric (renderDecimal q) = some q := by
  set e := decExp q.den with he
  set N := q.num.natAbs * 10 ^ e / q.den with hN
  set ip := natToChars (N / 10 ^ e) with hip
  set frac := (if e = 0 then ['0'] else padZeros e (natToCharsRaw (N % 10 ^ e))) with hfrac
  have hrd : (renderDecimal q).data =
      (if q.num < 0 then ['-'] else []) ++ ip ++ '.' :: frac := rfl
  have hipd : ∀ c ∈ ip, isDigitCh c = true := all_digit_natToChars _
  have hfd : ∀ c ∈ frac, isDigitCh c = true := frac_digits N e
  have hnws : ∀ c ∈ (if q.num < 0 then ['-'] else []) ++ ip ++ '.' :: frac,
      c.isWhitespace = false := by
    intro c hc
    rcases List.mem_append.mp hc with hc | hc
    · rcases List.mem_append.mp hc with hc | hc
      · split at hc
        · simp at hc
          rw [hc]
          decide
        · simp at hc
      · exact isDigitCh_not_ws (hipd c hc)
    · rcases List.mem_cons.mp hc with hc | hc
      · rw [hc]
        decide
      · exact isDigitCh_not_ws (hfd c hc)
  have harith : ((N : ℚ)) / ((10 : ℚ) ^ e) = (q.num.natAbs : ℚ) / (q.den : ℚ) := by
    have hden0 : ((q.den : ℕ) : ℚ) ≠ 0 := Nat.cast_ne_zero.mpr q.den_nz
    have hT : ((10 : ℚ)) ^ e ≠ 0 := by positivity
    have hdvd : q.den ∣ q.num.natAbs * 10 ^ e := Dvd.dvd.mul_left h q.num.natAbs
    rw [hN, Nat.cast_div hdvd hden0]
    push_cast
    field_simp
    ring
  rw [parseNumeric, hrd, stripChars_of_no_ws _ hnws]
  by_cases hneg : q.num < 0
  · rw [if_pos hneg, List.singleton_append, List.cons_append, parseSigned, if_pos rfl,
      hip, hfrac, parseUnsigned_render, harith]
    have habs : ((q.num.natAbs : ℚ)) = -(q.num : ℚ) := by
      rw [Int.cast_natAbs, abs_of_neg hneg]
      push_cast
      ring
    rw [Option.map_some', habs, neg_div, neg_neg, Rat.num_div_den]
  · rw [if_neg hneg, List.nil_append]
    obtain ⟨c0, ip', hip'⟩ := List.exists_cons_of_ne_nil (natToChars_ne_nil (N / 10 ^ e))
    have hipc : ip = c0 :: ip' := by rw [hip, hip']
    have hc0d : isDigitCh c0 = true := by
      apply hipd
      rw [hipc]
      exact List.mem_cons_self _ _
    rw [hipc, List.cons_append, parseSigned, if_neg (isDigitCh_not_minus hc0d),
      if_neg (isDigitCh_not_plus hc0d), ← List.cons_append, ← hipc, hip, hfrac,
      parseUnsigned_render, harith]
    have hpos : ((q.num.natAbs : ℚ)) = (q.num : ℚ) := by
      rw [Int.cast_natAbs, abs_of_nonneg (le_of_not_lt hneg)]
    rw [hpos, Rat.num_div_den]

lemma strCell_of_strOk (s : String) (h : strOkB s = true) : strCell s = s := by
  rw [strOkB] at h
  rw [strCell]
  by_cases hna : naStrings.contains s = true
  · rw [if_pos hna] at h
    rw [if_pos hna]
    exact (beq_iff_eq.mp h).symm
  · rw [if_neg hna] at h
    rw [if_neg hna]
    exact beq_iff_eq.mp h

lemma parseNumeric_renderOpt (v : Option ℚ) (h : numOkB v = true) :
    parseNumeric (renderOpt v) = v := by
  cases v with
  | none => rfl
  | some q =>
    rw [renderOpt]
    exact parseNumeric_renderDecimal q (by simpa [numOkB] using h)

lemma map_id_of_mem {α : Type} (l : List α) (f : α → α) (h : ∀ a ∈ l, f a = a) :
    l.map f = l := by
  induction l with
  | nil => rfl
  | cons a l ih =>
    rw [List.map_cons, h a (List.mem_cons_self a l),
      ih (fun x hx => h x (List.mem_cons_of_mem a hx))]

lemma recordOfRow_roundtrip (r : Record) (h : RoundtripSafeB r = true) :
    recordOfRow headerCols
      [r.player, r.team, r.pos, renderOpt r.base_projection, renderOpt r.proj_td_pts,
        renderOpt r.total_projection] = r := by
  rw [RoundtripSafeB] at h
  simp only [Bool.and_eq_true] at h
  obtain ⟨⟨⟨⟨⟨h1, h2⟩, h3⟩, h4⟩, h5⟩, h6⟩ := h
  rcases r with ⟨p, t, po, b, td, tot⟩
  have hrow : recordOfRow headerCols [p, t, po, renderOpt b, renderOpt td, renderOpt tot] =
      ⟨strCell p, strCell t, strCell po, parseNumeric (renderOpt b),
        parseNumeric (renderOpt td), parseNumeric (renderOpt tot)⟩ := rfl
  rw [hrow, strCell_of_strOk p h1, strCell_of_strOk t h2, strCell_of_strOk po h3,
    parseNumeric_renderOpt b h4, parseNumeric_renderOpt td h5, parseNumeric_renderOpt tot h6]

lemma renameHdr_headerCols : renameHdr headerCols = headerCols := by decide

lemma load_data_csv (rows : List (List String)) :
    load_data (FileContent.csv rows) = load_rows rows := rfl

/-- Claim C8: exporting the filtered-and-sorted (pre-pagination) view
to tabular text and re-parsing it with the loader yields the view back,
provided every cell survives the cycle: string cells are stripped and
are not NA sentinels (except the canonical `"nan"` marker itself, which
stands for an absent value), and numeric values have an exact finite
decimal form (true of every value the loader itself parses from
decimal text). -/
theorem export_roundtrip (df : List Record) (cfg : QueryConfig) (view : List Record)
    (hview : filterSort df cfg = some view)
    (hsafe : ∀ r ∈ view, RoundtripSafeB r = true) :
    load_data (FileContent.csv (toCsvCells view)) = Except.ok view := by
  rw [toCsvCells, load_data_csv, load_rows]
  simp only [renameHdr_headerCols]
  have hlen : ∀ row ∈ view.map (fun r =>
      [r.player, r.team, r.pos, renderOpt r.base_projection, renderOpt r.proj_td_pts,
        renderOpt r.total_projection]), row.length = headerCols.length := by
    intro row hrow
    obtain ⟨r, _, hr⟩ := List.mem_map.mp hrow
    rw [← hr]
    rfl
  rw [if_pos ⟨by decide,
    List.all_eq_true.mpr (fun row hrow => decide_eq_true (hlen row hrow))⟩]
  rw [List.map_map]
  congr 1
  exact map_id_of_mem _ _ (fun r hr => recordOfRow_roundtrip r (hsafe r hr))

/-- The one-row table of the claim C8 witness. -/
def c8Table : List Record := [⟨"Alpha", "KC", "RB", none, some 2, some 7⟩]

/-- The all-pass configuration of the claim C8 witness. -/
def c8Cfg : QueryConfig := ⟨"All", "", "", SortField.total_projection, true⟩

/-- Witness for the claim C8 theorem at a concrete input. -/
theorem export_roundtrip_witness :
    filterSort c8Table c8Cfg = some c8Table ∧
      (∀ r ∈ c8Table, RoundtripSafeB r = true) ∧
      load_data (FileContent.csv (toCsvCells c8Table)) = Except.ok c8Table :=
  ⟨by decide, by decide, export_roundtrip c8Table c8Cfg c8Table (by decide) (by decide)⟩
